import Mathlib

/-!
Verification development for the TreeDB repository.

The node-table HTTP API lives in src/server.js (handleApi); the client-side
tree algorithms in src/public/js/utils/tree.js; the forest builder in
src/public/js/ui/ui.js; the configuration flow in
src/public/js/config/config-form-controller.js; and the two-phase renumber
script in src/Scripts/test-0.sql.  Each definition below is a shallow
embedding of the corresponding source function; doc comments name the source.
-/

namespace TreeDB

/-- JavaScript values as they occur in the JSON payloads and stored rows that
server.js manipulates.  The numeric case is restricted to integers: every
value the claims exercise (ids, parent ids, order keys) is integral. -/
inductive JSValue where
  | vNum (n : Int)
  | vStr (s : String)
  | vBool (b : Bool)
  | vNull
  | vUndef
deriving DecidableEq

/-- Digit-string evaluation used by the model of the JS Number() coercion:
a nonempty all-digit list evaluates to its decimal value, otherwise NaN
(none). -/
def digitsVal (cs : List Char) : Option Nat :=
  if cs = [] then none
  else cs.foldl
    (fun acc c => acc.bind fun n =>
      if c.isDigit then some (10 * n + (c.toNat - 48)) else none)
    (some 0)

/-- Whitespace test for the string-trimming step of the JS Number()
coercion. -/
def jsIsWhitespace (c : Char) : Bool :=
  c = ' ' ∨ c = '\t' ∨ c = '\n' ∨ c = '\r'

/-- Whitespace trimming on a character list (both ends). -/
def jsTrimL (cs : List Char) : List Char :=
  ((cs.dropWhile jsIsWhitespace).reverse.dropWhile jsIsWhitespace).reverse

/-- Model of the JS Number() coercion on strings, restricted to integer
literals: surrounding whitespace is trimmed, the empty string is 0, an
optional sign is followed by decimal digits, and anything else is NaN
(none). -/
def jsStringToNumber (s : String) : Option Int :=
  match jsTrimL s.toList with
  | [] => some 0
  | '-' :: rest => (digitsVal rest).map (fun n => -(n : Int))
  | '+' :: rest => (digitsVal rest).map (fun n => (n : Int))
  | cs => (digitsVal cs).map (fun n => (n : Int))

/-- Model of the JS Number() coercion (server.js line 225): numbers are
themselves, booleans are 0 or 1, null is 0, undefined is NaN (none), and
strings go through jsStringToNumber. -/
def toNumber : JSValue → Option Int
  | .vNum n => some n
  | .vBool b => some (if b then 1 else 0)
  | .vNull => some 0
  | .vUndef => none
  | .vStr s => jsStringToNumber s

/-- ASCII lower-casing of one character (JS toLowerCase on the field names the
server sees). -/
def jsCharLower (c : Char) : Char :=
  if 'A' ≤ c ∧ c ≤ 'Z' then Char.ofNat (c.toNat + 32) else c

/-- Lower-cased character list of a string (JS String.prototype.toLowerCase,
restricted to ASCII). -/
def strToLowerL (s : String) : List Char :=
  s.toList.map jsCharLower

/-- Model of JS String.prototype.includes on character lists: the needle
occurs as a contiguous substring of the haystack. -/
def strIncludesL (hay needle : List Char) : Bool :=
  hay.tails.any (fun t => needle.isPrefixOf t)

/-- Default identity column name (server.js ID_FIELD). -/
def ID_FIELD : String := "id"

/-- Default parent column name (server.js PARENT_FIELD). -/
def PARENT_FIELD : String := "parent_id"

/-- Embedding of normalizeIncomingValue (server.js lines 220-229): empty
string and undefined become null; a key equal to the configured parent field
or containing the substring "id" case-insensitively is coerced with Number(),
storing null when the coercion is NaN; other values pass through. -/
def normalizeIncomingValue (parentField key : String) (value : JSValue) : JSValue :=
  if value = .vStr "" ∨ value = .vUndef then .vNull
  else if key = parentField ∨ strIncludesL (strToLowerL key) ['i', 'd'] then
    match toNumber value with
    | some n => .vNum n
    | none => .vNull
  else value

/-- One row of the node table.  The identity column is kept in id; all other
columns (the parent column included) are the association list fields. -/
structure Row where
  id : Int
  fields : List (String × JSValue)
deriving DecidableEq

/-- Column read on a row (missing column is undefined). -/
def getField (r : Row) (k : String) : Option JSValue :=
  r.fields.lookup k

/-- Column write on an association list: replace the first binding of the key
or append a new one (SQL SET semantics on a single row). -/
def setField : List (String × JSValue) → String → JSValue → List (String × JSValue)
  | [], k, v => [(k, v)]
  | (k1, v1) :: rest, k, v =>
      if k1 = k then (k, v) :: rest else (k1, v1) :: setField rest k v

/-- Numeric value of the parent column of a row; a non-numeric or absent
parent never joins in SQL integer comparisons. -/
def parentNum (r : Row) : Option Int :=
  match getField r PARENT_FIELD with
  | some (.vNum n) => some n
  | _ => none

/-- Outcome of the PUT /api/nodes/id handler. -/
inductive UpdateResult where
  | badRequest
  | notFound
  | updated (row : Option Row)
deriving DecidableEq

/-- HTTP status the PUT handler sends for each outcome (server.js lines
111-137). -/
def statusOfUpdate : UpdateResult → Nat
  | .badRequest => 400
  | .notFound => 404
  | .updated _ => 200

/-- Application of the UPDATE assignment list to one row: each payload column
is stored through normalizeIncomingValue (server.js line 120). -/
def applyAssignments (r : Row) (cols : List (String × JSValue)) : Row :=
  { r with
    fields := cols.foldl
      (fun fs kv => setField fs kv.1 (normalizeIncomingValue PARENT_FIELD kv.1 kv.2))
      r.fields }

/-- Embedding of the PUT /api/nodes/id branch of handleApi (server.js lines
111-137): drop the identity field from the payload, 400 when nothing remains,
run the UPDATE on every row whose id matches, 404 when no row matched, else
200 with the row re-read by id.  The branch performs no cycle check of any
kind. -/
def updateNode (table : List Row) (target : Int) (payload : List (String × JSValue)) :
    UpdateResult × List Row :=
  let cols := payload.filter (fun kv => kv.1 ≠ ID_FIELD)
  if cols = [] then (.badRequest, table)
  else
    let newTable := table.map (fun r => if r.id = target then applyAssignments r cols else r)
    let changes := (table.filter (fun r => r.id == target)).length
    if changes = 0 then (.notFound, table)
    else (.updated (newTable.find? (fun r => r.id == target)), newTable)

/-- Next AUTOINCREMENT id: one past the maximum id present. -/
def nextAutoId (table : List Row) : Int :=
  (table.foldl (fun m r => max m r.id) 0) + 1

/-- Outcome of the POST /api/nodes handler. -/
inductive InsertResult where
  | badRequest
  | created (row : Row)
deriving DecidableEq

/-- Embedding of the POST /api/nodes branch of handleApi (server.js lines
78-100): drop the identity field, 400 when nothing remains, else insert a row
whose columns are the payload columns stored through normalizeIncomingValue,
with a fresh AUTOINCREMENT id, and answer 201 with the row. -/
def insertNode (table : List Row) (payload : List (String × JSValue)) :
    InsertResult × List Row :=
  let cols := payload.filter (fun kv => kv.1 ≠ ID_FIELD)
  if cols = [] then (.badRequest, table)
  else
    let newRow : Row :=
      { id := nextAutoId table,
        fields := cols.map (fun kv => (kv.1, normalizeIncomingValue PARENT_FIELD kv.1 kv.2)) }
    (.created newRow, table ++ [newRow])

/-- Row order used by the GET /api/nodes branch (server.js line 69): the SQL
is ORDER BY the id column, and nothing else. -/
def rowLe (a b : Row) : Prop := a.id ≤ b.id

instance : DecidableRel rowLe := fun a b => inferInstanceAs (Decidable (a.id ≤ b.id))

instance : IsTotal Row rowLe := ⟨fun a b => Int.le_total a.id b.id⟩

instance : IsTrans Row rowLe := ⟨fun _ _ _ hab hbc => le_trans hab hbc⟩

/-- Embedding of the GET /api/nodes branch of handleApi (server.js lines
68-76): the full table ordered by the id column. -/
def listAllNodes (table : List Row) : List Row :=
  table.insertionSort rowLe

/-- Modelled from the spec: order key of a node for the spec-side ordering
comparison; the spec's orderKey is the user sort column ("sort" in the client
default configuration), read as an integer, 0 when absent. -/
def orderKeyOf (r : Row) : Int :=
  match getField r "sort" with
  | some (.vNum n) => n
  | _ => 0

/-- Modelled from the spec: the listing order the spec asserts, strict
ordering by the pair (orderKey, id). -/
def specOrderedByOrderKeyId (l : List Row) : Prop :=
  l.Pairwise (fun a b =>
    orderKeyOf a < orderKeyOf b ∨ (orderKeyOf a = orderKeyOf b ∧ a.id < b.id))

/-- Child edge of the stored parent relation: c is a child of a when some row
has id c and numeric parent a (the join condition of the recursive CTE,
server.js line 143). -/
def ChildStep (table : List Row) (a c : Int) : Prop :=
  ∃ r ∈ table, r.id = c ∧ parentNum r = some a

instance (table : List Row) (a c : Int) : Decidable (ChildStep table a c) :=
  inferInstanceAs (Decidable (∃ r ∈ table, r.id = c ∧ parentNum r = some a))

/-- Descendant relation: c lies in the descendant closure of a (one or more
child edges). -/
def Descendant (table : List Row) (a c : Int) : Prop :=
  Relation.TransGen (ChildStep table) a c

/-- Acyclicity of the stored parent relation: no node is its own descendant
(equivalently, restricted to non-null parents, no node is its own
ancestor). -/
def Acyclic (table : List Row) : Prop :=
  ∀ x, ¬ Descendant table x x

/-- Rows whose numeric parent lies in the given frontier (the join step of the
recursive CTE). -/
def childRows (table : List Row) (frontier : List Int) : List Row :=
  table.filter (fun r =>
    match parentNum r with
    | some p => frontier.contains p
    | none => false)

/-- Level n of the recursive CTE of the DELETE branch (server.js lines
140-145): level 0 is the seed (ids of rows whose id is the target), level n+1
the ids of rows whose parent is in level n.  The UNION ALL query enumerates
exactly the members of these levels, so the produced id-set is their
union. -/
def cteLevel (table : List Row) (target : Int) : Nat → List Int
  | 0 => (table.filter (fun r => r.id == target)).map (fun r => r.id)
  | n + 1 => (childRows table (cteLevel table target n)).map (fun r => r.id)

/-- Ids produced by the recursive CTE after fuel levels. -/
def cteSubtree (table : List Row) (target : Int) (fuel : Nat) : List Int :=
  (List.range fuel).flatMap (cteLevel table target)

/-- Distinct ids present in the table. -/
def tableIds (table : List Row) : List Int :=
  (table.map (fun r => r.id)).dedup

/-- Embedding of the DELETE /api/nodes/id branch of handleApi (server.js lines
139-163): collect the subtree ids with the recursive CTE, answer 404 when the
result is empty (missing target), else delete every row whose id is in the
set and answer 204.  The source query iterates to quiescence; on inputs where
it terminates the id-set is reached within (tableIds table).length levels
(lemma cteLevel_eq_nil_of_acyclic below); inputs on which the source query
diverges are treated separately via cteLevel. -/
def deleteNode (table : List Row) (target : Int) : Nat × List Row :=
  let ids := cteSubtree table target (tableIds table).length
  if ids = [] then (404, table)
  else (204, table.filter (fun r => !(ids.contains r.id)))

section ChainLemmas

variable {α : Type} {r : α → α → Prop}

/-- Extending a relation chain by one step at its end. -/
lemma chain_snoc :
    ∀ (l : List α) (a x : α), List.Chain r a l →
      r ((a :: l).getLast (List.cons_ne_nil a l)) x → List.Chain r a (l ++ [x])
  | [], a, x, _, hx => by
      simpa using List.Chain.cons (by simpa using hx) List.Chain.nil
  | b :: t, a, x, hch, hx => by
      rcases List.chain_cons.mp hch with ⟨hab, hbt⟩
      have htail : List.Chain r b (t ++ [x]) := by
        apply chain_snoc t b x hbt
        have hlast : (a :: b :: t).getLast (List.cons_ne_nil a (b :: t)) =
            (b :: t).getLast (List.cons_ne_nil b t) :=
          List.getLast_cons (List.cons_ne_nil b t)
        rw [hlast] at hx
        exact hx
      exact List.chain_cons.mpr ⟨hab, htail⟩

/-- Every member of a chain is reachable from its head by at least one
step. -/
lemma chain_transGen :
    ∀ (l : List α) (a x : α), List.Chain r a l → x ∈ l → Relation.TransGen r a x
  | [], _, _, _, hx => absurd hx (List.not_mem_nil _)
  | b :: t, a, x, hch, hx => by
      rcases List.chain_cons.mp hch with ⟨hab, hbt⟩
      rcases List.mem_cons.mp hx with hxb | hxt
      · exact hxb ▸ Relation.TransGen.single hab
      · exact (Relation.TransGen.single hab).trans (chain_transGen t b x hbt hxt)

/-- A chain that revisits an element yields a cycle of the relation. -/
lemma chain_cycle_of_not_nodup :
    ∀ (l : List α) (a : α), List.Chain r a l → ¬ (a :: l).Nodup →
      ∃ x, Relation.TransGen r x x
  | [], a, _, hnd => absurd (List.nodup_cons.mpr ⟨List.not_mem_nil a, List.nodup_nil⟩) hnd
  | b :: t, a, hch, hnd => by
      rcases List.chain_cons.mp hch with ⟨_, hbt⟩
      by_cases hmem : a ∈ b :: t
      · exact ⟨a, chain_transGen (b :: t) a a hch hmem⟩
      · apply chain_cycle_of_not_nodup t b hbt
        intro hnodup
        exact hnd (List.nodup_cons.mpr ⟨hmem, hnodup⟩)

end ChainLemmas

/-- A duplicate-free list of elements of S is no longer than S deduplicated. -/
lemma nodup_length_le_dedup {l S : List Int} (hn : l.Nodup) (hs : ∀ x ∈ l, x ∈ S) :
    l.length ≤ S.dedup.length := by
  have hsub : l.toFinset ⊆ S.toFinset := by
    intro x hx
    exact List.mem_toFinset.mpr (hs x (List.mem_toFinset.mp hx))
  calc l.length = l.toFinset.card := (List.toFinset_card_of_nodup hn).symm
    _ ≤ S.toFinset.card := Finset.card_le_card hsub
    _ = S.dedup.length := List.card_toFinset S

/-- Membership in level 0 of the CTE: the target, when a row carries it. -/
lemma mem_cteLevel_zero {table : List Row} {target x : Int} :
    x ∈ cteLevel table target 0 ↔ x = target ∧ ∃ r ∈ table, r.id = target := by
  simp only [cteLevel, List.mem_map, List.mem_filter, beq_iff_eq]
  constructor
  · rintro ⟨r, ⟨hr, hid⟩, hx⟩
    exact ⟨hx ▸ hid, r, hr, hid⟩
  · rintro ⟨hx, r, hr, hid⟩
    exact ⟨r, ⟨hr, hid⟩, hx ▸ hid⟩

/-- Membership in level n+1 of the CTE: a child step from level n. -/
lemma mem_cteLevel_succ {table : List Row} {target x : Int} {n : Nat} :
    x ∈ cteLevel table target (n + 1) ↔
      ∃ p ∈ cteLevel table target n, ChildStep table p x := by
  simp only [cteLevel, childRows, List.mem_map, List.mem_filter]
  constructor
  · rintro ⟨r, ⟨hr, hcond⟩, hx⟩
    rcases hp : parentNum r with _ | p
    · rw [hp] at hcond; exact absurd hcond (by simp)
    · rw [hp] at hcond
      have hmem : p ∈ cteLevel table target n := by
        simpa using hcond
      exact ⟨p, hmem, r, hr, hx, hp⟩
  · rintro ⟨p, hp, r, hr, hid, hpar⟩
    refine ⟨r, ⟨hr, ?_⟩, hid⟩
    rw [hpar]
    simpa using hp

/-- Every member of a CTE level is the endpoint of a child-step chain from the
target whose length is the level index; in particular the seed row exists. -/
lemma cteLevel_chain {table : List Row} {target : Int} :
    ∀ (n : Nat) (x : Int), x ∈ cteLevel table target n →
      (∃ r ∈ table, r.id = target) ∧
      ∃ l : List Int, List.Chain (ChildStep table) target l ∧ l.length = n ∧
        (target :: l).getLast (List.cons_ne_nil target l) = x
  | 0, x, hx => by
      rcases mem_cteLevel_zero.mp hx with ⟨hxt, hrow⟩
      exact ⟨hrow, [], List.Chain.nil, rfl, by simp [hxt]⟩
  | n + 1, x, hx => by
      rcases mem_cteLevel_succ.mp hx with ⟨p, hp, hstep⟩
      rcases cteLevel_chain n p hp with ⟨hrow, l, hch, hlen, hlast⟩
      refine ⟨hrow, l ++ [x], ?_, by simp [hlen], ?_⟩
      · exact chain_snoc l target x hch (hlast ▸ hstep)
      · have : (target :: (l ++ [x])) = (target :: l) ++ [x] := by simp
        rw [List.getLast_congr _ _ this]
        exact List.getLast_concat _

/-- Chain members under the child-step relation are ids of table rows. -/
lemma chain_mem_ids {table : List Row} :
    ∀ (l : List Int) (a : Int), List.Chain (ChildStep table) a l →
      ∀ x ∈ l, x ∈ table.map (fun r => r.id)
  | [], _, _, x, hx => absurd hx (List.not_mem_nil x)
  | b :: t, a, hch, x, hx => by
      rcases List.chain_cons.mp hch with ⟨hab, hbt⟩
      rcases List.mem_cons.mp hx with hxb | hxt
      · rcases hab with ⟨row, hrow, hid, _⟩
        exact List.mem_map.mpr ⟨row, hrow, hxb ▸ hid⟩
      · exact chain_mem_ids t b hbt x hxt

/-- On an acyclic table the CTE reaches an empty level within as many steps as
there are distinct ids: a longer chain would have to revisit a row. -/
lemma cteLevel_eq_nil_of_acyclic {table : List Row} {target : Int}
    (hA : Acyclic table) :
    cteLevel table target (tableIds table).length = [] := by
  by_contra hne
  rcases List.exists_mem_of_ne_nil _ hne with ⟨x, hx⟩
  rcases cteLevel_chain _ x hx with ⟨⟨row, hrow, hid⟩, l, hch, hlen, _⟩
  by_cases hnd : (target :: l).Nodup
  · have hsub : ∀ y ∈ target :: l, y ∈ table.map (fun r => r.id) := by
      intro y hy
      rcases List.mem_cons.mp hy with hyt | hyl
      · exact List.mem_map.mpr ⟨row, hrow, hyt ▸ hid⟩
      · exact chain_mem_ids l target hch y hyl
    have hle := nodup_length_le_dedup hnd hsub
    rw [List.length_cons, hlen] at hle
    exact absurd hle (by simp [tableIds])
  · rcases chain_cycle_of_not_nodup l target hch hnd with ⟨y, hy⟩
    exact hA y hy

/-- Once a level is empty every later level is empty. -/
lemma cteLevel_nil_succ {table : List Row} {target : Int} {n : Nat}
    (h : cteLevel table target n = []) :
    cteLevel table target (n + 1) = [] := by
  simp [cteLevel, childRows, h]
  intro r hr
  rcases hp : parentNum r with _ | p <;> simp

/-- Membership in the accumulated CTE output. -/
lemma mem_cteSubtree {table : List Row} {target x : Int} {fuel : Nat} :
    x ∈ cteSubtree table target fuel ↔ ∃ n < fuel, x ∈ cteLevel table target n := by
  simp [cteSubtree]

/-- Soundness: every id in the CTE output is the target or one of its
descendants, and the seed row exists. -/
lemma cteSubtree_sub_closure {table : List Row} {target : Int} :
    ∀ (n : Nat) (x : Int), x ∈ cteLevel table target n →
      (∃ r ∈ table, r.id = target) ∧ (x = target ∨ Descendant table target x)
  | 0, x, hx => by
      rcases mem_cteLevel_zero.mp hx with ⟨hxt, hrow⟩
      exact ⟨hrow, Or.inl hxt⟩
  | n + 1, x, hx => by
      rcases mem_cteLevel_succ.mp hx with ⟨p, hp, hstep⟩
      rcases cteSubtree_sub_closure n p hp with ⟨hrow, hcase⟩
      refine ⟨hrow, Or.inr ?_⟩
      rcases hcase with hpt | hdesc
      · exact Relation.TransGen.single (hpt ▸ hstep)
      · exact Relation.TransGen.tail hdesc hstep

/-- Completeness: when the table is acyclic and the target row exists, the CTE
output collected over (tableIds table).length levels covers the target and all
its descendants. -/
lemma closure_sub_cteSubtree {table : List Row} {target : Int}
    (hA : Acyclic table) (hrow : ∃ r ∈ table, r.id = target) :
    ∀ x, (x = target ∨ Descendant table target x) →
      x ∈ cteSubtree table target (tableIds table).length := by
  have hpos : 0 < (tableIds table).length := by
    rcases hrow with ⟨r, hr, hid⟩
    have : r.id ∈ tableIds table := by
      simp only [tableIds, List.mem_dedup]
      exact List.mem_map.mpr ⟨r, hr, rfl⟩
    exact List.length_pos.mpr (List.ne_nil_of_mem this)
  have htarget : target ∈ cteLevel table target 0 :=
    mem_cteLevel_zero.mpr ⟨rfl, hrow⟩
  have hstepP : ∀ p x, (∃ n < (tableIds table).length, p ∈ cteLevel table target n) →
      ChildStep table p x →
      ∃ n < (tableIds table).length, x ∈ cteLevel table target n := by
    rintro p x ⟨n, hn, hp⟩ hstep
    have hx : x ∈ cteLevel table target (n + 1) :=
      mem_cteLevel_succ.mpr ⟨p, hp, hstep⟩
    rcases Nat.lt_or_ge (n + 1) (tableIds table).length with hlt | hge
    · exact ⟨n + 1, hlt, hx⟩
    · have heq : n + 1 = (tableIds table).length := le_antisymm hn hge
      have : cteLevel table target (n + 1) = [] :=
        heq ▸ cteLevel_eq_nil_of_acyclic hA
      rw [this] at hx
      exact absurd hx (List.not_mem_nil x)
  intro x hx
  rcases hx with hxt | hdesc
  · exact mem_cteSubtree.mpr ⟨0, hpos, hxt ▸ htarget⟩
  · apply mem_cteSubtree.mpr
    induction hdesc with
    | single hstep => exact hstepP target _ ⟨0, hpos, htarget⟩ hstep
    | tail _ hstep ih => exact hstepP _ _ ih hstep

/-- When no row carries the target id, every CTE level is empty. -/
lemma cteLevel_all_nil {table : List Row} {target : Int}
    (h : target ∉ table.map (fun r => r.id)) :
    ∀ n, cteLevel table target n = [] := by
  intro n
  induction n with
  | zero =>
      simp only [cteLevel, List.map_eq_nil_iff, List.filter_eq_nil_iff, beq_iff_eq]
      intro r hr hid
      exact h (List.mem_map.mpr ⟨r, hr, hid⟩)
  | succ n ih => exact cteLevel_nil_succ ih

/-- A table whose rows have no numeric parent has no child edges, hence is
acyclic. -/
lemma acyclic_of_no_parent (table : List Row)
    (h : ∀ r ∈ table, parentNum r = none) : Acyclic table := by
  intro x hx
  have hstep : ∀ a c : Int, ¬ ChildStep table a c := by
    rintro a c ⟨r, hr, _, hp⟩
    rw [h r hr] at hp
    exact Option.noConfusion hp
  cases hx with
  | single hs => exact hstep _ _ hs
  | tail _ hs => exact hstep _ _ hs

/-- Claim C4: on an acyclic table, DELETE of an existing node removes exactly
the node together with its descendant closure and no other row, answering
204; DELETE of a missing node answers 404 and removes nothing. -/
theorem delete_removes_exactly_closure (table : List Row) (target : Int)
    (hA : Acyclic table) :
    (target ∉ table.map (fun r => r.id) → deleteNode table target = (404, table)) ∧
    (target ∈ table.map (fun r => r.id) →
      (deleteNode table target).1 = 204 ∧
      ∀ r ∈ table,
        (r ∈ (deleteNode table target).2 ↔
          ¬ (r.id = target ∨ Descendant table target r.id))) := by
  constructor
  · intro hmiss
    have hnil : cteSubtree table target (tableIds table).length = [] := by
      apply List.eq_nil_iff_forall_not_mem.mpr
      intro x hx
      rcases mem_cteSubtree.mp hx with ⟨n, _, hxl⟩
      rw [cteLevel_all_nil hmiss n] at hxl
      exact absurd hxl (List.not_mem_nil x)
    simp [deleteNode, hnil]
  · intro hmem
    rcases List.mem_map.mp hmem with ⟨row, hrow, hid⟩
    have hrowex : ∃ r ∈ table, r.id = target := ⟨row, hrow, hid⟩
    have hpos : 0 < (tableIds table).length := by
      have : target ∈ tableIds table := by
        simp only [tableIds, List.mem_dedup]
        exact hmem
      exact List.length_pos.mpr (List.ne_nil_of_mem this)
    have htmem : target ∈ cteSubtree table target (tableIds table).length :=
      mem_cteSubtree.mpr ⟨0, hpos, mem_cteLevel_zero.mpr ⟨rfl, hrowex⟩⟩
    have hne : cteSubtree table target (tableIds table).length ≠ [] :=
      List.ne_nil_of_mem htmem
    have hiff : ∀ x, x ∈ cteSubtree table target (tableIds table).length ↔
        (x = target ∨ Descendant table target x) := by
      intro x
      constructor
      · intro hx
        rcases mem_cteSubtree.mp hx with ⟨n, _, hxl⟩
        exact (cteSubtree_sub_closure n x hxl).2
      · exact closure_sub_cteSubtree hA hrowex x
    constructor
    · simp [deleteNode, hne]
    · intro r hr
      have hmemfil : r ∈ (deleteNode table target).2 ↔
          r ∈ table ∧ r.id ∉ cteSubtree table target (tableIds table).length := by
        simp [deleteNode, if_neg hne]
      rw [hmemfil]
      constructor
      · rintro ⟨_, hnotin⟩ hcl
        exact hnotin ((hiff r.id).mpr hcl)
      · intro hncl
        exact ⟨hr, fun hin => hncl ((hiff r.id).mp hin)⟩

/-- One-row table with no parent pointer, a concrete acyclic instance. -/
def soloTable : List Row := [⟨1, [("name", .vStr "root")]⟩]

/-- Witness for claim C4 at a concrete acyclic table with an existing id. -/
theorem delete_removes_exactly_closure_witness :
    (deleteNode soloTable 1).1 = 204 :=
  ((delete_removes_exactly_closure soloTable 1
      (acyclic_of_no_parent soloTable (by decide))).2 (by decide)).1

/-- Malformed two-row table whose parent pointers form a cycle: each row is
the other's parent. -/
def cycTable : List Row :=
  [⟨1, [("parent_id", .vNum 2)]⟩, ⟨2, [("parent_id", .vNum 1)]⟩]

/-- On the cyclic table the CTE frontier alternates between the two rows
forever. -/
lemma cycTable_level_alternates :
    ∀ n, cteLevel cycTable 1 n = [1] ∨ cteLevel cycTable 1 n = [2] := by
  intro n
  induction n with
  | zero => left; decide
  | succ n ih =>
      rcases ih with h | h
      · right
        show (childRows cycTable (cteLevel cycTable 1 n)).map (fun r => r.id) = [2]
        rw [h]; decide
      · left
        show (childRows cycTable (cteLevel cycTable 1 n)).map (fun r => r.id) = [1]
        rw [h]; decide

/-- Counterexample to claim C5: on the cyclic table the recursive CTE of the
DELETE branch never reaches an empty frontier, so the subtree computation of
delete does not terminate; it is not a visited-set-guarded traversal. -/
theorem delete_cte_diverges_on_cycle :
    ¬ ∃ n, cteLevel cycTable 1 n = [] := by
  rintro ⟨n, hn⟩
  rcases cycTable_level_alternates n with h | h <;> rw [hn] at h <;> simp at h

/-- Claim C5 as amended: the closure computation of delete is an unguarded
recursive CTE; its frontier empties on every acyclic table (within as many
levels as there are distinct ids), but on cyclic parent data such as cycTable
the frontier never empties, so the source query diverges there. -/
theorem delete_cte_terminates_on_acyclic_only :
    (∀ (table : List Row) (target : Int), Acyclic table →
      ∃ n, cteLevel table target n = []) ∧
    (∀ n, cteLevel cycTable 1 n ≠ []) := by
  constructor
  · intro table target hA
    exact ⟨(tableIds table).length, cteLevel_eq_nil_of_acyclic hA⟩
  · intro n hn
    rcases cycTable_level_alternates n with h | h <;> rw [hn] at h <;> simp at h

/-- Witness for the amended claim C5 at a concrete acyclic table. -/
theorem delete_cte_terminates_on_acyclic_only_witness :
    ∃ n, cteLevel soloTable 1 n = [] :=
  delete_cte_terminates_on_acyclic_only.1 soloTable 1
    (acyclic_of_no_parent soloTable (by decide))

/-- Two-row table where node 2 is a child of node 1. -/
def chainTable : List Row :=
  [⟨1, [("parent_id", .vNull)]⟩, ⟨2, [("parent_id", .vNum 1)]⟩]

/-- Claim C1 names a cycle guard the PUT handler does not have: with node 2 in
the descendant closure of node 1, updating node 1 to parent 2 is accepted with
status 200 and the table is changed into a cyclic one — no CycleError, no 409,
no rollback exists in the handler. -/
theorem update_accepts_cycle_creating_reparent :
    Descendant chainTable 1 2 ∧
    statusOfUpdate (updateNode chainTable 1 [("parent_id", .vNum 2)]).1 = 200 ∧
    (updateNode chainTable 1 [("parent_id", .vNum 2)]).2 =
      [⟨1, [("parent_id", .vNum 2)]⟩, ⟨2, [("parent_id", .vNum 1)]⟩] ∧
    (updateNode chainTable 1 [("parent_id", .vNum 2)]).2 ≠ chainTable :=
  ⟨Relation.TransGen.single (by decide), by decide, by decide, by decide⟩

/-- Two-row table whose id order disagrees with its (orderKey, id) order. -/
def skewTable : List Row :=
  [⟨1, [("sort", .vNum 2000)]⟩, ⟨2, [("sort", .vNum 1000)]⟩]

/-- Counterexample to claim C6: the GET handler orders by the id column only,
and its output on skewTable is not ordered by (orderKey, id). -/
theorem listAll_not_ordered_by_orderKey :
    listAllNodes skewTable = skewTable ∧
    ¬ specOrderedByOrderKeyId (listAllNodes skewTable) := by
  constructor
  · decide
  · unfold specOrderedByOrderKeyId
    decide

/-- Claim C6 as amended: listAll returns every node, sorted by the id column
ascending (the SQL is ORDER BY id; the order key plays no role). -/
theorem listAll_sorted_by_id (table : List Row) :
    (listAllNodes table).Perm table ∧ List.Sorted rowLe (listAllNodes table) :=
  ⟨List.perm_insertionSort rowLe table, List.sorted_insertionSort rowLe table⟩

/-- Raw parent-column value of a row as the client sees it (ui.js line 47). -/
def rawParent (r : Row) : Option JSValue := getField r PARENT_FIELD

/-- Embedding of the root test of TreeRenderer.buildForest (ui.js line 49): a
node is a root when its parent value is null, undefined (absent), the empty
string, or strictly equal to its own id. -/
def isRootRow (r : Row) : Bool :=
  match rawParent r with
  | none => true
  | some .vNull => true
  | some .vUndef => true
  | some (.vStr s) => s == ""
  | some (.vNum p) => p == r.id
  | some (.vBool _) => false

/-- Roots produced by buildForest (ui.js lines 49-51). -/
def forestRoots (data : List Row) : List Row := data.filter isRootRow

/-- Numeric parent value used as the Map key in buildForest; a non-numeric
parent never matches a node id. -/
def numParentVal (r : Row) : Option Int :=
  match rawParent r with
  | some (.vNum p) => some p
  | _ => none

/-- Children attached to the node pid by buildForest (ui.js lines 52-55):
non-root rows whose parent value equals pid. -/
def forestChildrenOf (data : List Row) (pid : Int) : List Row :=
  data.filter (fun r => !(isRootRow r) && (numParentVal r == some pid))

/-- Orphans of buildForest (ui.js lines 56-59): non-root rows whose parent
matches no node in the data set. -/
def forestOrphans (data : List Row) : List Row :=
  data.filter (fun r => !(isRootRow r) &&
    (match numParentVal r with
     | some p => !(data.any (fun q => q.id == p))
     | none => true))

/-- Claim C9: the PUT handler accepts setting a node's parent to its own id
(it has no cycle check at all, so status is 200), and the client forest
builder thereafter places every self-parented node among the roots and never
as any node's child. -/
theorem self_parent_accepted_and_rooted (table : List Row) (i : Int) (r0 : Row)
    (hr : r0 ∈ table) (hid : r0.id = i) :
    statusOfUpdate (updateNode table i [(PARENT_FIELD, .vNum i)]).1 = 200 ∧
    (∀ (data : List Row) (s : Row), s ∈ data → rawParent s = some (.vNum s.id) →
      s ∈ forestRoots data ∧ ∀ pid, s ∉ forestChildrenOf data pid) := by
  constructor
  · have hmem : r0 ∈ table.filter (fun r => r.id == i) :=
      List.mem_filter.mpr ⟨hr, by simp [hid]⟩
    have hchanges : (table.filter (fun r => r.id == i)).length ≠ 0 := by
      intro h0
      rw [List.length_eq_zero] at h0
      rw [h0] at hmem
      exact absurd hmem (List.not_mem_nil r0)
    simp [updateNode, statusOfUpdate, hchanges, PARENT_FIELD, ID_FIELD]
  · intro data s hs hpar
    have hroot : isRootRow s = true := by
      simp [isRootRow, hpar]
    refine ⟨List.mem_filter.mpr ⟨hs, hroot⟩, ?_⟩
    intro pid hmem
    rcases List.mem_filter.mp hmem with ⟨_, hcond⟩
    simp [hroot] at hcond

/-- Witness for claim C9 at a concrete one-row table. -/
theorem self_parent_accepted_and_rooted_witness :
    statusOfUpdate (updateNode [⟨3, [("parent_id", JSValue.vNull)]⟩] 3
        [(PARENT_FIELD, .vNum 3)]).1 = 200 ∧
    (⟨3, [("parent_id", JSValue.vNum 3)]⟩ : Row) ∈
      forestRoots [⟨3, [("parent_id", JSValue.vNum 3)]⟩] := by
  have h := self_parent_accepted_and_rooted [⟨3, [("parent_id", JSValue.vNull)]⟩] 3
    ⟨3, [("parent_id", JSValue.vNull)]⟩ (by decide) rfl
  exact ⟨h.1, (h.2 [⟨3, [("parent_id", JSValue.vNum 3)]⟩]
    ⟨3, [("parent_id", JSValue.vNum 3)]⟩ (by decide) (by decide)).1⟩

/-- Reading back the column just written by setField. -/
lemma lookup_setField_self (fs : List (String × JSValue)) (k : String) (v : JSValue) :
    (setField fs k v).lookup k = some v := by
  induction fs with
  | nil => simp [setField, List.lookup]
  | cons kv rest ih =>
      rcases kv with ⟨k1, v1⟩
      by_cases h : k1 = k
      · simp [setField, h, List.lookup]
      · have hbeq : (k == k1) = false := by simp [Ne.symm h]
        simp [setField, if_neg h, List.lookup, hbeq, ih]

/-- Reading a different column after setField. -/
lemma lookup_setField_other (fs : List (String × JSValue)) (k k2 : String)
    (v : JSValue) (h : k2 ≠ k) :
    (setField fs k v).lookup k2 = fs.lookup k2 := by
  have hbeq : (k2 == k) = false := by simp [h]
  induction fs with
  | nil => simp [setField, List.lookup, hbeq]
  | cons kv rest ih =>
      rcases kv with ⟨k1, v1⟩
      by_cases h1 : k1 = k
      · subst h1
        simp [setField, List.lookup, hbeq]
      · by_cases h2 : k2 = k1
        · subst h2
          simp [setField, if_neg h1, List.lookup]
        · have hbeq2 : (k2 == k1) = false := by simp [h2]
          simp [setField, if_neg h1, List.lookup, hbeq2, ih]

/-- Folding assignments for other columns leaves a column untouched. -/
lemma lookup_foldl_set_of_not_mem (cols : List (String × JSValue)) :
    ∀ (fs : List (String × JSValue)) (k : String), k ∉ cols.map Prod.fst →
      (cols.foldl
        (fun fs kv => setField fs kv.1 (normalizeIncomingValue PARENT_FIELD kv.1 kv.2))
        fs).lookup k = fs.lookup k := by
  induction cols with
  | nil => intro fs k _; rfl
  | cons kv rest ih =>
      intro fs k hk
      simp only [List.map_cons, List.mem_cons] at hk
      push_neg at hk
      rw [List.foldl_cons, ih _ k hk.2]
      exact lookup_setField_other fs kv.1 k _ hk.1

/-- The column stored by the UPDATE assignment fold is the normalized payload
value (for a payload without duplicate column names). -/
lemma lookup_applyAssignments_aux (cols : List (String × JSValue)) :
    ∀ (fs : List (String × JSValue)) (k : String) (v : JSValue),
      (cols.map Prod.fst).Nodup → (k, v) ∈ cols →
      (cols.foldl
        (fun fs kv => setField fs kv.1 (normalizeIncomingValue PARENT_FIELD kv.1 kv.2))
        fs).lookup k = some (normalizeIncomingValue PARENT_FIELD k v) := by
  induction cols with
  | nil => intro fs k v _ hmem; exact absurd hmem (List.not_mem_nil _)
  | cons kv rest ih =>
      intro fs k v hnd hmem
      simp only [List.map_cons, List.nodup_cons] at hnd
      rcases List.mem_cons.mp hmem with heq | hrest
      · subst heq
        rw [List.foldl_cons, lookup_foldl_set_of_not_mem rest _ k hnd.1]
        exact lookup_setField_self fs k _
      · rw [List.foldl_cons]
        exact ih _ k v hnd.2 hrest

/-- Claim C10: normalizeIncomingValue sends empty-string and undefined values
of any field to null; a field whose name is the parent field or contains "id"
case-insensitively is coerced with Number(), storing null exactly when the
coercion is NaN; and both the UPDATE assignment fold and the INSERT column
list store the normalized value of every payload column. -/
theorem normalize_coercion_on_insert_and_update :
    (∀ (parentField key : String) (v : JSValue),
      (v = .vStr "" ∨ v = .vUndef) →
      normalizeIncomingValue parentField key v = .vNull) ∧
    (∀ (parentField key : String) (v : JSValue),
      ¬ (v = .vStr "" ∨ v = .vUndef) →
      (key = parentField ∨ strIncludesL (strToLowerL key) ['i', 'd'] = true) →
      normalizeIncomingValue parentField key v =
        (match toNumber v with
         | some n => JSValue.vNum n
         | none => JSValue.vNull)) ∧
    (∀ (r : Row) (cols : List (String × JSValue)) (k : String) (v : JSValue),
      (cols.map Prod.fst).Nodup → (k, v) ∈ cols →
      getField (applyAssignments r cols) k =
        some (normalizeIncomingValue PARENT_FIELD k v)) ∧
    (∀ (table : List Row) (payload : List (String × JSValue)) (row : Row)
      (rest : List Row), insertNode table payload = (.created row, rest) →
      row.fields = (payload.filter (fun kv => kv.1 ≠ ID_FIELD)).map
        (fun kv => (kv.1, normalizeIncomingValue PARENT_FIELD kv.1 kv.2))) := by
  refine ⟨?_, ?_, ?_, ?_⟩
  · intro parentField key v hv
    simp [normalizeIncomingValue, hv]
  · intro parentField key v hv hkey
    simp [normalizeIncomingValue, hv, hkey]
  · intro r cols k v hnd hmem
    exact lookup_applyAssignments_aux cols r.fields k v hnd hmem
  · intro table payload row rest h
    simp only [insertNode] at h
    split at h
    · simp at h
    · simp only [Prod.mk.injEq, InsertResult.created.injEq] at h
      rw [← h.1]

/-- Witness for claim C10 at concrete keys and values. -/
theorem normalize_coercion_witness :
    normalizeIncomingValue "parent_id" "user_id" (.vStr "abc") = .vNull ∧
    normalizeIncomingValue "parent_id" "budget" (.vStr "") = .vNull ∧
    getField (applyAssignments ⟨1, []⟩ [("budget", .vStr "")]) "budget" =
      some .vNull := by
  refine ⟨?_, ?_, ?_⟩
  · exact (normalize_coercion_on_insert_and_update.2.1 "parent_id" "user_id"
      (.vStr "abc") (by decide) (Or.inr (by decide))).trans (by decide)
  · exact normalize_coercion_on_insert_and_update.1 "parent_id" "budget"
      (.vStr "") (Or.inl rfl)
  · exact (normalize_coercion_on_insert_and_update.2.2.1 ⟨1, []⟩
      [("budget", .vStr "")] "budget" (.vStr "") (by decide) (by decide)).trans
      (by decide)

/-- Client-side node as tree.js sees it: an id and a raw parent pointer
(null or a number; a parent of 0 is falsy in JS and treated like null by
getAncestorIds). -/
structure CNode where
  id : Int
  parent : Option Int
deriving DecidableEq

/-- Loop body of getDescendantIds over the children list: push the child id,
then everything the recursive call returns, then continue with the remaining
children; a failing (out-of-fuel) recursive call fails the loop. -/
def descLoop (f : Int → Option (List Int)) : List CNode → Option (List Int)
  | [] => some []
  | c :: cs =>
      match f c.id with
      | none => none
      | some ds =>
          match descLoop f cs with
          | none => none
          | some rest => some (c.id :: ds ++ rest)

/-- Embedding of getDescendantIds (tree.js lines 13-24) with explicit fuel
standing for the recursion the source performs; none marks a computation that
needs more recursion than the fuel allows, so a result of none at every fuel
is divergence of the source.  The source recursion has no visited set. -/
def getDescendantIdsF (data : List CNode) : Nat → Int → Option (List Int)
  | 0, _ => none
  | fuel + 1, nodeId =>
      match data.find? (fun n => n.id == nodeId) with
      | none => some []
      | some _ =>
          descLoop (getDescendantIdsF data fuel)
            (data.filter (fun n => n.parent == some nodeId))

/-- Embedding of the findParent recursion inside getAncestorIds (tree.js lines
32-49): stop on a visited id, a missing row, or a falsy parent (null or 0);
otherwise record the parent and recurse on it with the id added to the
visited set. -/
def findParentF (data : List CNode) : Nat → List Int → Int → Option (List Int)
  | 0, _, _ => none
  | fuel + 1, visited, id =>
      if visited.contains id then some []
      else
        match data.find? (fun n => n.id == id) with
        | none => some []
        | some n =>
            match n.parent with
            | none => some []
            | some p =>
                if p = 0 then some []
                else (findParentF data fuel (id :: visited) p).map (fun as => p :: as)

/-- Embedding of getAncestorIds (tree.js lines 32-49). -/
def getAncestorIdsF (data : List CNode) (fuel : Nat) (nodeId : Int) : Option (List Int) :=
  findParentF data fuel [] nodeId

/-- Monotonicity of filtering under a pointwise-stronger predicate. -/
lemma length_filter_le_of_imp {α : Type} (l : List α) (p q : α → Bool)
    (h : ∀ x, p x = true → q x = true) :
    (l.filter p).length ≤ (l.filter q).length := by
  induction l with
  | nil => simp
  | cons d rest ih =>
      by_cases hp : p d = true
      · simp [List.filter_cons, hp, h d hp, Nat.succ_le_succ ih]
      · rcases hq : q d with _ | _
        · simp [List.filter_cons, Bool.eq_false_iff.mpr hp, hq]
          exact ih
        · simp [List.filter_cons, Bool.eq_false_iff.mpr hp, hq]
          exact le_trans ih (Nat.le_succ _)

/-- Visiting an id that names a not-yet-visited row strictly shrinks the set
of unvisited rows. -/
lemma filter_visited_lt (data : List CNode) (visited : List Int) (id : Int)
    (hn : ∃ n ∈ data, n.id = id) (hnv : id ∉ visited) :
    (data.filter (fun n => !((id :: visited).contains n.id))).length <
      (data.filter (fun n => !(visited.contains n.id))).length := by
  induction data with
  | nil =>
      rcases hn with ⟨n, hmem, _⟩
      exact absurd hmem (List.not_mem_nil n)
  | cons d rest ih =>
      by_cases hd : d.id = id
      · have hp1 : (!((id :: visited).contains d.id)) = false := by simp [hd]
        have hp2 : (!(visited.contains d.id)) = true := by simp [hd, hnv]
        have hle := length_filter_le_of_imp rest
          (fun n => !((id :: visited).contains n.id))
          (fun n => !(visited.contains n.id))
          (by intro x hx; simp at hx; simp [hx.2])
        simp only [List.filter_cons, hp1, hp2, Bool.false_eq_true, ite_false,
          ite_true, List.length_cons]
        omega
      · have heq : (!((id :: visited).contains d.id)) = (!(visited.contains d.id)) := by
          simp [List.contains_cons, hd]
        have hn2 : ∃ n ∈ rest, n.id = id := by
          rcases hn with ⟨n, hmem, hid⟩
          rcases List.mem_cons.mp hmem with rfl | hmem2
          · exact absurd hid hd
          · exact ⟨n, hmem2, hid⟩
        rcases hb : (!(visited.contains d.id)) with _ | _
        · simp only [List.filter_cons, heq, hb, Bool.false_eq_true, ite_false]
          exact ih hn2
        · simp only [List.filter_cons, heq, hb, ite_true, List.length_cons]
          exact Nat.succ_lt_succ (ih hn2)

/-- The visited-set guard makes the ancestor recursion total: fuel exceeding
the number of unvisited rows always suffices. -/
lemma findParentF_total (data : List CNode) :
    ∀ (fuel : Nat) (visited : List Int) (id : Int),
      (data.filter (fun n => !(visited.contains n.id))).length < fuel →
      ∃ r, findParentF data fuel visited id = some r := by
  intro fuel
  induction fuel with
  | zero => intro visited id h; exact absurd h (Nat.not_lt_zero _)
  | succ fuel ih =>
      intro visited id h
      by_cases hv : visited.contains id = true
      · exact ⟨[], by unfold findParentF; rw [if_pos hv]⟩
      · rcases hf : data.find? (fun n => n.id == id) with _ | n
        · exact ⟨[], by unfold findParentF; rw [if_neg hv, hf]⟩
        · have hnid : n.id = id := by
            have := List.find?_some hf
            simpa using this
          have hnmem : n ∈ data := List.mem_of_find?_eq_some hf
          rcases hp : n.parent with _ | p
          · exact ⟨[], by unfold findParentF; rw [if_neg hv, hf]; simp [hp]⟩
          · by_cases hz : p = 0
            · exact ⟨[], by unfold findParentF; rw [if_neg hv, hf]; simp [hp, hz]⟩
            · have hlt : (data.filter
                  (fun m => !((id :: visited).contains m.id))).length < fuel := by
                have hstrict := filter_visited_lt data visited id ⟨n, hnmem, hnid⟩
                  (by simpa using hv)
                exact Nat.lt_of_lt_of_le hstrict (Nat.lt_succ_iff.mp h)
              rcases ih (id :: visited) p hlt with ⟨r, hr⟩
              exact ⟨p :: r, by unfold findParentF; rw [if_neg hv, hf]; simp [hp, hz, hr]⟩

/-- Malformed client data whose parent pointers form a two-cycle. -/
def cycData : List CNode := [⟨1, some 2⟩, ⟨2, some 1⟩]

/-- On the cyclic data the naive descendant recursion runs out of any amount
of fuel from either node. -/
lemma getDescendantIdsF_cyc :
    ∀ fuel, getDescendantIdsF cycData fuel 1 = none ∧
      getDescendantIdsF cycData fuel 2 = none := by
  intro fuel
  induction fuel with
  | zero => exact ⟨rfl, rfl⟩
  | succ fuel ih =>
      constructor
      · show getDescendantIdsF cycData (fuel + 1) 1 = none
        unfold getDescendantIdsF
        rw [show (cycData.find? (fun n => n.id == 1)) = some ⟨1, some 2⟩ from rfl]
        rw [show (cycData.filter (fun n => n.parent == some 1)) = [⟨2, some 1⟩] from rfl]
        simp [descLoop, ih.2]
      · show getDescendantIdsF cycData (fuel + 1) 2 = none
        unfold getDescendantIdsF
        rw [show (cycData.find? (fun n => n.id == 2)) = some ⟨2, some 1⟩ from rfl]
        rw [show (cycData.filter (fun n => n.parent == some 2)) = [⟨1, some 2⟩] from rfl]
        simp [descLoop, ih.1]

/-- Counterexample to claim C7: getDescendantIds has no visited-set guard, and
on the cyclic data set it diverges — no amount of recursion produces a
result. -/
theorem getDescendantIds_diverges_on_cycle :
    ¬ ∃ (fuel : Nat) (r : List Int), getDescendantIdsF cycData fuel 1 = some r := by
  rintro ⟨fuel, r, hr⟩
  rw [(getDescendantIdsF_cyc fuel).1] at hr
  exact Option.noConfusion hr

/-- Claim C7 as amended: getAncestorIds is guarded by a visited set and
terminates on every data set, cyclic ones included, while getDescendantIds is
naive recursion without a visited set and does not terminate on cyclic parent
data such as cycData. -/
theorem ancestors_guarded_descendants_unguarded :
    (∀ (data : List CNode) (nodeId : Int),
      ∃ r, getAncestorIdsF data (data.length + 1) nodeId = some r) ∧
    (∀ fuel, getDescendantIdsF cycData fuel 1 = none) := by
  constructor
  · intro data nodeId
    apply findParentF_total data (data.length + 1) [] nodeId
    have : data.filter (fun n => !(([] : List Int).contains n.id)) = data := by
      simp
    rw [this]
    exact Nat.lt_succ_self _
  · intro fuel
    exact (getDescendantIdsF_cyc fuel).1

/-- Row of the tool table the renumber script of src/Scripts/test-0.sql
operates on: an id and its current sort order. -/
structure SRow where
  id : Int
  sortOrder : Int
deriving DecidableEq

/-- Order used by ROW_NUMBER() OVER (ORDER BY sort_order). -/
def sortLe (a b : SRow) : Prop := a.sortOrder ≤ b.sortOrder

instance : DecidableRel sortLe :=
  fun a b => inferInstanceAs (Decidable (a.sortOrder ≤ b.sortOrder))

instance : IsTotal SRow sortLe := ⟨fun a b => Int.le_total a.sortOrder b.sortOrder⟩

instance : IsTrans SRow sortLe := ⟨fun _ _ _ h1 h2 => le_trans h1 h2⟩

/-- Spacing constant of the renumber script (test-0.sql line 17). -/
def GAP : Int := 1000

/-- Rank-based new sort orders: the row of rank rk (1-based, in sort_order
order) receives (rk - 2) * 1000, the formula of test-0.sql line 17. -/
def assignRanks : Int → List SRow → List (Int × Int)
  | _, [] => []
  | rk, r :: rs => (r.id, (rk - 2) * GAP) :: assignRanks (rk + 1) rs

/-- Content of the tmp_tool_sort table (test-0.sql lines 14-18): each id with
its new sort order. -/
def newSortOrders (rows : List SRow) : List (Int × Int) :=
  assignRanks 1 (rows.insertionSort sortLe)

/-- base_width of the script (test-0.sql lines 21-24):
COALESCE(MAX(ABS(new_sort_order)), 0) + 1000. -/
def baseWidth (rows : List SRow) : Int :=
  (((newSortOrders rows).foldl (fun m p => max m p.2.natAbs) 0 : Nat) : Int) + GAP

/-- Phase-1 temporary keys (test-0.sql lines 25-31):
-(new_sort_order * base_width + id) per row. -/
def phase1Keys (rows : List SRow) : List (Int × Int) :=
  (newSortOrders rows).map (fun p => (p.1, -(p.2 * baseWidth rows + p.1)))

/-- Phase-2 final keys (test-0.sql lines 33-39): the new sort orders
themselves. -/
def phase2Keys (rows : List SRow) : List (Int × Int) := newSortOrders rows

/-- Shape of the assigned sort orders: consecutive multiples of GAP starting
at (k - 2) * GAP. -/
lemma assignRanks_map_snd :
    ∀ (k : Int) (l : List SRow),
      (assignRanks k l).map Prod.snd =
        (List.range l.length).map (fun i : Nat => ((i : Int) + k - 2) * GAP)
  | k, [] => by simp [assignRanks]
  | k, r :: rs => by
      have hrec := assignRanks_map_snd (k + 1) rs
      simp only [assignRanks, List.map_cons, List.length_cons,
        List.range_succ_eq_map, List.map_map]
      refine List.cons_eq_cons.mpr ⟨by norm_num, ?_⟩
      rw [hrec]
      apply List.map_congr_left
      intro i _
      simp only [Function.comp_apply]
      push_cast
      ring

/-- Every assigned pair's sort order is at least the starting rank's value. -/
lemma assignRanks_snd_ge :
    ∀ (k : Int) (l : List SRow) (p : Int × Int),
      p ∈ assignRanks k l → (k - 2) * GAP ≤ p.2
  | k, [], p, hp => absurd hp (List.not_mem_nil p)
  | k, r :: rs, p, hp => by
      rcases List.mem_cons.mp hp with rfl | hp2
      · exact le_refl _
      · have h1 := assignRanks_snd_ge (k + 1) rs p hp2
        have : (k - 2) * GAP ≤ (k + 1 - 2) * GAP := by
          have : (k + 1 - 2) * GAP = (k - 2) * GAP + GAP := by ring
          rw [this]
          simp [GAP]
        exact le_trans this h1

/-- Assigned sort orders strictly increase along the list, by at least GAP. -/
lemma assignRanks_snd_sep :
    ∀ (k : Int) (l : List SRow),
      (assignRanks k l).Pairwise (fun p q => p.2 + GAP ≤ q.2)
  | k, [] => List.Pairwise.nil
  | k, r :: rs => by
      refine List.Pairwise.cons ?_ (assignRanks_snd_sep (k + 1) rs)
      intro q hq
      have h1 := assignRanks_snd_ge (k + 1) rs q hq
      have : (k - 2) * GAP + GAP = (k + 1 - 2) * GAP := by ring
      rw [this]
      exact h1

/-- Every assigned pair takes its id from some row of the group. -/
lemma assignRanks_fst_mem :
    ∀ (k : Int) (l : List SRow) (p : Int × Int),
      p ∈ assignRanks k l → ∃ r ∈ l, p.1 = r.id
  | k, [], p, hp => absurd hp (List.not_mem_nil p)
  | k, r :: rs, p, hp => by
      rcases List.mem_cons.mp hp with rfl | hp2
      · exact ⟨r, List.mem_cons_self r rs, rfl⟩
      · rcases assignRanks_fst_mem (k + 1) rs p hp2 with ⟨s, hs, hid⟩
        exact ⟨s, List.mem_cons_of_mem r hs, hid⟩

/-- base_width is at least GAP. -/
lemma baseWidth_ge (rows : List SRow) : GAP ≤ baseWidth rows := by
  unfold baseWidth
  have : (0 : Int) ≤ (((newSortOrders rows).foldl
      (fun m p => max m p.2.natAbs) 0 : Nat) : Int) := Int.natCast_nonneg _
  omega

/-- Two-row group whose phase keys refute the claimed key signs. -/
def pairRows : List SRow := [⟨1, 10⟩, ⟨2, 20⟩]

/-- Counterexample to claim C8: on a two-row group the phase-2 keys are -1000
and 0 — not positive — and the phase-1 key of the first-ranked row is
positive, not negative (the script's temporary key is
-(new_sort_order * base_width + id) with new_sort_order = (rank - 2) * 1000,
not -(rank * width + id)). -/
theorem renumber_phase2_not_positive :
    phase2Keys pairRows = [(1, -1000), (2, 0)] ∧
    ¬ (∀ p ∈ phase2Keys pairRows, 0 < p.2) ∧
    ¬ (∀ p ∈ phase1Keys pairRows, p.2 < 0) := by
  refine ⟨by decide, by decide, by decide⟩

/-- Claim C8 as amended: phase 2 assigns the evenly-spaced keys
(rank - 2) * GAP — pairwise distinct, GAP apart, starting at -GAP, so not all
positive — and phase 1 assigns the temporary keys
-(newKey * base_width + id), which are pairwise distinct whenever every id is
nonnegative and below GAP * base_width. -/
theorem renumber_two_phase_keys (rows : List SRow)
    (hid : ∀ r ∈ rows, 0 ≤ r.id ∧ r.id < GAP * baseWidth rows) :
    ((phase2Keys rows).map Prod.snd) =
      (List.range rows.length).map (fun i : Nat => ((i : Int) - 1) * GAP) ∧
    ((phase2Keys rows).map Prod.snd).Nodup ∧
    ((phase1Keys rows).map Prod.snd).Nodup := by
  have hsep : (newSortOrders rows).Pairwise (fun p q => p.2 + GAP ≤ q.2) :=
    assignRanks_snd_sep 1 (rows.insertionSort sortLe)
  have hmemid : ∀ p ∈ newSortOrders rows, 0 ≤ p.1 ∧ p.1 < GAP * baseWidth rows := by
    intro p hp
    rcases assignRanks_fst_mem 1 (rows.insertionSort sortLe) p hp with ⟨r, hr, hid1⟩
    have hrmem : r ∈ rows := (List.perm_insertionSort sortLe rows).mem_iff.mp hr
    rw [hid1]
    exact hid r hrmem
  refine ⟨?_, ?_, ?_⟩
  · rw [phase2Keys, newSortOrders,
      assignRanks_map_snd 1 (rows.insertionSort sortLe),
      List.length_insertionSort]
    apply List.map_congr_left
    intro i _
    ring_nf
  · show List.Pairwise (fun x y => x ≠ y) ((phase2Keys rows).map Prod.snd)
    rw [phase2Keys, List.pairwise_map]
    apply hsep.imp
    intro a b hab
    have hg : GAP = 1000 := rfl
    rw [hg] at hab
    omega
  · have hW : GAP ≤ baseWidth rows := baseWidth_ge rows
    have hg : (0 : Int) < GAP := by norm_num [GAP]
    have hWpos : (0 : Int) ≤ baseWidth rows := le_trans (le_of_lt hg) hW
    have hpair : (newSortOrders rows).Pairwise
        (fun p q => -(p.2 * baseWidth rows + p.1) ≠ -(q.2 * baseWidth rows + q.1)) := by
      refine hsep.imp_of_mem ?_
      intro a b ha hb hab heq
      obtain ⟨ha0, haW⟩ := hmemid a ha
      obtain ⟨hb0, hbW⟩ := hmemid b hb
      have hd : GAP ≤ b.2 - a.2 := by linarith
      have hGW : GAP * baseWidth rows ≤ (b.2 - a.2) * baseWidth rows :=
        mul_le_mul_of_nonneg_right hd hWpos
      rw [sub_mul] at hGW
      have he2 : b.2 * baseWidth rows - a.2 * baseWidth rows = a.1 - b.1 := by
        linarith
      linarith
    show List.Pairwise (fun x y => x ≠ y) ((phase1Keys rows).map Prod.snd)
    rw [phase1Keys, List.map_map, List.pairwise_map]
    simpa using hpair

/-- Witness for the amended claim C8 at the concrete two-row group. -/
theorem renumber_two_phase_keys_witness :
    ((phase2Keys pairRows).map Prod.snd) =
      (List.range pairRows.length).map (fun i : Nat => ((i : Int) - 1) * GAP) ∧
    ((phase1Keys pairRows).map Prod.snd).Nodup := by
  have h := renumber_two_phase_keys pairRows (by decide)
  exact ⟨h.1, h.2.2⟩

/-- Modelled from the spec: the server-side SessionRegistry (spec section 4.1)
is not among the provided sources — only its HTTP callers under
src/public/js are — so its state is modelled from the spec's words.  One
live session: opaque id, the resource key it holds, and its last-access
time. -/
structure MSession where
  sid : Nat
  resourceKey : String
  lastAccess : Nat
deriving DecidableEq

/-- Modelled from the spec: registry state — the live sessions plus a fresh-id
counter standing for opaque-token generation. -/
structure Registry where
  sessions : List MSession
  nextId : Nat
deriving DecidableEq

/-- Idle timeout in seconds (spec: default 1800s). -/
def IDLE_TIMEOUT : Nat := 1800

/-- Modelled from the spec: sweep(now) deletes every session whose
now - lastAccessAt exceeds the idle timeout; invoked lazily before every
create. -/
def sweep (now : Nat) (reg : Registry) : Registry :=
  { reg with
    sessions := reg.sessions.filter (fun s => decide (now - s.lastAccess ≤ IDLE_TIMEOUT)) }

/-- Outcome of create: a fresh session id, or the conflict carrying the
holder's id. -/
inductive CreateOutcome where
  | created (sid : Nat)
  | conflictError (heldBy : Nat)
deriving DecidableEq

/-- Modelled from the spec: create(resourceKey, config, force) — after the
lazy sweep, a free resource yields a fresh session; a held resource yields
ConflictError with the holder's id unless force, in which case the holder is
atomically revoked and a fresh session for the same resource is created. -/
def createSession (reg : Registry) (rkey : String) (force : Bool) (now : Nat) :
    CreateOutcome × Registry :=
  let reg1 := sweep now reg
  match reg1.sessions.find? (fun s => s.resourceKey == rkey) with
  | none =>
      (.created reg1.nextId,
       ⟨⟨reg1.nextId, rkey, now⟩ :: reg1.sessions, reg1.nextId + 1⟩)
  | some held =>
      if force then
        (.created reg1.nextId,
         ⟨⟨reg1.nextId, rkey, now⟩ ::
            reg1.sessions.filter (fun s => s.sid != held.sid), reg1.nextId + 1⟩)
      else (.conflictError held.sid, reg1)

/-- Outcome of authorize. -/
inductive AuthOutcome where
  | authorized
  | expiredError
deriving DecidableEq

/-- Modelled from the spec: authorize(sessionId) fails when the session does
not exist or is expired. -/
def authorize (reg : Registry) (sid : Nat) (now : Nat) : AuthOutcome :=
  match reg.sessions.find? (fun s => s.sid == sid) with
  | none => .expiredError
  | some s => if IDLE_TIMEOUT < now - s.lastAccess then .expiredError else .authorized

/-- Claim C2: with no live holder of the resource, a first create succeeds;
a second create without force (before expiry, no intervening delete) fails
with ConflictError carrying the holder's id; a second create with force
succeeds with a fresh id and revokes the first session, whose authorize
subsequently fails. -/
theorem session_exclusivity (reg0 : Registry) (rkey : String) (t1 t2 : Nat)
    (hfree : ∀ s ∈ reg0.sessions, s.resourceKey ≠ rkey)
    (hle : t1 ≤ t2) (hexp : t2 - t1 ≤ IDLE_TIMEOUT) :
    ∃ (sid1 : Nat) (reg1 : Registry),
      createSession reg0 rkey false t1 = (.created sid1, reg1) ∧
      (createSession reg1 rkey false t2).1 = .conflictError sid1 ∧
      (∃ sid2, (createSession reg1 rkey true t2).1 = .created sid2 ∧ sid2 ≠ sid1) ∧
      authorize (createSession reg1 rkey true t2).2 sid1 t2 = .expiredError := by
  have hn0 : (sweep t1 reg0).sessions.find? (fun s => s.resourceKey == rkey) = none := by
    apply List.find?_eq_none.mpr
    intro s hs
    have hmem : s ∈ reg0.sessions := List.mem_of_mem_filter hs
    simp [hfree s hmem]
  refine ⟨reg0.nextId,
    ⟨⟨reg0.nextId, rkey, t1⟩ :: (sweep t1 reg0).sessions, reg0.nextId + 1⟩,
    ?_, ?_, ?_, ?_⟩
  · simp only [createSession]
    rw [hn0]
    rfl
  · simp only [createSession]
    rw [show (sweep t2
        ⟨⟨reg0.nextId, rkey, t1⟩ :: (sweep t1 reg0).sessions, reg0.nextId + 1⟩).sessions =
      (⟨reg0.nextId, rkey, t1⟩ : MSession) ::
        ((sweep t1 reg0).sessions.filter
          (fun s => decide (t2 - s.lastAccess ≤ IDLE_TIMEOUT))) from by
      simp [sweep, List.filter_cons]
      omega]
    rw [List.find?_cons_of_pos _ (by simp)]
    rfl
  · refine ⟨reg0.nextId + 1, ?_, Nat.succ_ne_self reg0.nextId⟩
    simp only [createSession]
    rw [show (sweep t2
        ⟨⟨reg0.nextId, rkey, t1⟩ :: (sweep t1 reg0).sessions, reg0.nextId + 1⟩).sessions =
      (⟨reg0.nextId, rkey, t1⟩ : MSession) ::
        ((sweep t1 reg0).sessions.filter
          (fun s => decide (t2 - s.lastAccess ≤ IDLE_TIMEOUT))) from by
      simp [sweep, List.filter_cons]
      omega]
    rw [List.find?_cons_of_pos _ (by simp)]
    rfl
  · simp only [createSession]
    rw [show (sweep t2
        ⟨⟨reg0.nextId, rkey, t1⟩ :: (sweep t1 reg0).sessions, reg0.nextId + 1⟩).sessions =
      (⟨reg0.nextId, rkey, t1⟩ : MSession) ::
        ((sweep t1 reg0).sessions.filter
          (fun s => decide (t2 - s.lastAccess ≤ IDLE_TIMEOUT))) from by
      simp [sweep, List.filter_cons]
      omega]
    rw [List.find?_cons_of_pos _ (by simp)]
    simp only [authorize, ite_true]
    have hfindnone :
        List.find? (fun s => s.sid == reg0.nextId)
          ((⟨(sweep t2 ⟨⟨reg0.nextId, rkey, t1⟩ :: (sweep t1 reg0).sessions,
              reg0.nextId + 1⟩).nextId, rkey, t2⟩ : MSession) ::
            List.filter (fun s => s.sid != reg0.nextId)
              ((⟨reg0.nextId, rkey, t1⟩ : MSession) ::
                List.filter (fun s => decide (t2 - s.lastAccess ≤ IDLE_TIMEOUT))
                  (sweep t1 reg0).sessions)) = none := by
      apply List.find?_eq_none.mpr
      intro s hs
      rcases List.mem_cons.mp hs with rfl | hmem
      · simp [sweep]
      · have hcond := List.of_mem_filter hmem
        simpa using hcond
    rw [hfindnone]

/-- Witness for claim C2 at a concrete empty registry and resource key. -/
theorem session_exclusivity_witness :
    ∃ (sid1 : Nat) (reg1 : Registry),
      createSession ⟨[], 0⟩ "treedb.sqlite::tree_nodes" false 0 = (.created sid1, reg1) ∧
      (createSession reg1 "treedb.sqlite::tree_nodes" false 100).1 =
        .conflictError sid1 ∧
      (∃ sid2, (createSession reg1 "treedb.sqlite::tree_nodes" true 100).1 =
        .created sid2 ∧ sid2 ≠ sid1) ∧
      authorize (createSession reg1 "treedb.sqlite::tree_nodes" true 100).2 sid1 100 =
        .expiredError :=
  session_exclusivity ⟨[], 0⟩ "treedb.sqlite::tree_nodes" 0 100
    (by intro s hs; exact absurd hs (List.not_mem_nil s)) (by decide) (by decide)

/-- One entry of the session list the client fetches from GET /api/session,
as cleanupConflictingSessions reads it (config-form-controller.js lines
662-703): id, last access time, and the configured data source identity. -/
structure UISession where
  sid : String
  lastAccess : Nat
  dbPath : String
  tableName : String
deriving DecidableEq

/-- Thirty-minute timeout of cleanupConflictingSessions
(config-form-controller.js line 678). -/
def SESSION_TIMEOUT_MS : Nat := 30 * 60 * 1000

/-- Embedding of cleanupConflictingSessions (config-form-controller.js lines
662-703): the ids it deletes — every session that is expired or holds the
same DB_PATH and TABLE_NAME as the target configuration.  No confirmation is
requested anywhere in it. -/
def cleanupConflictingSessions (now : Nat) (sessions : List UISession)
    (cfgDb cfgTable : String) : List String :=
  (sessions.filter (fun s =>
    decide (SESSION_TIMEOUT_MS < now - s.lastAccess) ||
    (s.dbPath == cfgDb && s.tableName == cfgTable))).map (fun s => s.sid)

/-- Outcome of one HTTP call as applyConfig branches on it: success carrying a
session id, status 409, or any other error. -/
inductive HttpOutcome where
  | ok (sid : String)
  | conflict409
  | otherError
deriving DecidableEq

/-- Externally visible actions of one applyConfig run, in order. -/
inductive UIEvent where
  | evDeleteSession (sid : String)
  | evPlainCreate
  | evConfirmPrompt
  | evForceCreate
  | evReuseExisting
  | evPostConfig (sid : String)
  | evForceUpdate (sid : String)
  | evAbort
deriving DecidableEq

/-- Tail of applyConfig (config-form-controller.js lines 411-446): POST the
config; on 409 force-update the session with force=true — with no
confirmation prompt; on another error abort. -/
def postConfigPhase (sid : String) (cfgRes : HttpOutcome) : List UIEvent :=
  UIEvent.evPostConfig sid ::
    (match cfgRes with
     | .ok _ => []
     | .conflict409 => [UIEvent.evForceUpdate sid]
     | .otherError => [UIEvent.evAbort])

/-- Embedding of ConfigFormController.applyConfig (config-form-controller.js
lines 306-447) as the trace of its externally visible actions, with the
server responses and the operator's confirm() answer as oracle inputs.  When
no session id is stored it first runs cleanupConflictingSessions (deleting
every expired-or-matching session with no prompt), then the plain create; a
409 shows the confirm() prompt and only a positive answer leads to the forced
create (a failed force falls back to reusing an existing session); finally
the config POST runs, whose own 409 is force-retried without a prompt. -/
def applyConfigTrace (stored : Option String) (now : Nat)
    (sessions : List UISession) (cfgDb cfgTable : String)
    (createRes : HttpOutcome) (userConfirms : Bool)
    (forceRes cfgRes : HttpOutcome) : List UIEvent :=
  match stored with
  | some sid => postConfigPhase sid cfgRes
  | none =>
      ((cleanupConflictingSessions now sessions cfgDb cfgTable).map
        UIEvent.evDeleteSession)
      ++ [UIEvent.evPlainCreate]
      ++ (match createRes with
          | .ok sid => postConfigPhase sid cfgRes
          | .otherError => [UIEvent.evAbort]
          | .conflict409 =>
              UIEvent.evConfirmPrompt ::
              (if userConfirms then
                UIEvent.evForceCreate ::
                (match forceRes with
                 | .ok sid => postConfigPhase sid cfgRes
                 | _ => [UIEvent.evReuseExisting])
               else [UIEvent.evAbort]))

/-- Actions that revoke or override another session's claim. -/
def isEviction : UIEvent → Bool
  | .evDeleteSession _ => true
  | .evForceCreate => true
  | .evForceUpdate _ => true
  | _ => false

/-- Modelled from the spec: the claimed temporal property — every eviction
action in a trace is preceded by the conflict having been surfaced via the
confirmation prompt. -/
def evictionsSurfacedFirst (tr : List UIEvent) : Prop :=
  ∀ i < tr.length, isEviction (tr.getD i UIEvent.evAbort) = true →
    UIEvent.evConfirmPrompt ∈ tr.take i

/-- Live session holding the same resource as the target configuration. -/
def liveConflictSession : UISession := ⟨"s1", 0, "db.sqlite", "tree"⟩

/-- Counterexample to claim C3: with no stored session and a live session
holding the same resource, applyConfig's very first action deletes that
session — before any prompt, before even the plain create — so the flow does
evict another session silently. -/
theorem applyConfig_evicts_silently :
    ¬ evictionsSurfacedFirst
      (applyConfigTrace none 0 [liveConflictSession] "db.sqlite" "tree"
        (.ok "s2") false (.ok "f") (.ok "c")) := by
  unfold evictionsSurfacedFirst
  decide

/-- Claim C3 as amended: the forced create is issued only after the conflict
prompt was shown and answered positively; but when no session id is stored,
applyConfig first deletes exactly the sessions cleanupConflictingSessions
selects (expired or same-resource) with no prompt, and a 409 on the config
POST triggers a force update that is likewise never preceded by a prompt
about it. -/
theorem applyConfig_flow (stored : Option String) (now : Nat)
    (sessions : List UISession) (cfgDb cfgTable : String)
    (createRes : HttpOutcome) (userConfirms : Bool)
    (forceRes cfgRes : HttpOutcome) :
    (UIEvent.evForceCreate ∈ applyConfigTrace stored now sessions cfgDb cfgTable
        createRes userConfirms forceRes cfgRes →
      userConfirms = true ∧ createRes = .conflict409 ∧ stored = none ∧
      UIEvent.evConfirmPrompt ∈ applyConfigTrace stored now sessions cfgDb cfgTable
        createRes userConfirms forceRes cfgRes) ∧
    (∀ x, UIEvent.evDeleteSession x ∈ applyConfigTrace stored now sessions cfgDb
        cfgTable createRes userConfirms forceRes cfgRes ↔
      (stored = none ∧ x ∈ cleanupConflictingSessions now sessions cfgDb cfgTable)) ∧
    (∀ x, UIEvent.evForceUpdate x ∈ applyConfigTrace stored now sessions cfgDb
        cfgTable createRes userConfirms forceRes cfgRes → cfgRes = .conflict409) := by
  rcases stored with _ | sid0 <;>
    rcases createRes with sidc | _ | _ <;>
      rcases cfgRes with sidf | _ | _ <;>
        rcases forceRes with sidr | _ | _ <;>
          rcases userConfirms with _ | _ <;>
            simp [applyConfigTrace, postConfigPhase]

/-- Witness for the amended claim C3 at a concrete conflicted run that the
operator confirms. -/
theorem applyConfig_flow_witness :
    (true = true ∧ HttpOutcome.conflict409 = HttpOutcome.conflict409 ∧
      (none : Option String) = none ∧
      UIEvent.evConfirmPrompt ∈ applyConfigTrace none 0 [] "db.sqlite" "tree"
        .conflict409 true (.ok "f") (.ok "c")) :=
  (applyConfig_flow none 0 [] "db.sqlite" "tree" .conflict409 true
    (.ok "f") (.ok "c")).1 (by decide)

end TreeDB
